import Mathlib

/-!
Formal model of the trending-news core of `backend/services/trendingNewsService.js`:
similarity scoring, keyword categorization, greedy headline clustering, representative
title selection, trending ranking, and the cache gate.  JavaScript strings are modelled
as Lean `String`, JS numbers arising as ratios of small integers as `Rat`, JS `Set`s as
insertion-ordered duplicate-free lists, and the filesystem cache as an explicit
`Option TrendingCache` value threaded through the functions that read and write it.
-/

/-- A collected headline record (`scrapeHeadlines` pushes objects with these fields). -/
structure HeadlineRecord where
  title : String
  summary : String
  link : String
  source : String
  sourceUrl : String
  timestamp : String
deriving DecidableEq, Repr, Inhabited

/-- JS regex class `\w` = `[A-Za-z0-9_]`. -/
def isWordChar (c : Char) : Bool := c.isAlphanum || c == '_'

/-- JS regex class `\s` (whitespace), restricted to the ASCII whitespace relevant here. -/
def isSpaceChar (c : Char) : Bool := c.isWhitespace

/-- `text.toLowerCase()` character by character (ASCII-faithful). -/
def strToLower (s : String) : String := String.mk (s.toList.map Char.toLower)

/-- Whether `pat` occurs at the start of `text` (character lists). -/
def startsList : List Char → List Char → Bool
  | [], _ => true
  | _ :: _, [] => false
  | p :: ps, t :: ts => (p == t) && startsList ps ts

/-- Whether `pat` occurs somewhere in `text` (character lists). -/
def containsList (pat : List Char) : List Char → Bool
  | [] => pat.isEmpty
  | t :: ts => startsList pat (t :: ts) || containsList pat ts

/-- JS `text.includes(pat)`. -/
def includes (text pat : String) : Bool := containsList pat.toList text.toList

/-- The `processText` helper inside `calculateSimilarity`:
`text.toLowerCase().replace(/[^\w\s]/g, '').split(/\s+/).filter(word => word.length > 3)`.
Splitting at every whitespace character differs from splitting at whitespace runs only by
empty chunks, which the length-`> 3` filter removes either way. -/
def processText (text : String) : List String :=
  (((((text.toList.map Char.toLower).filter
        (fun c => isWordChar c || isSpaceChar c)).splitOnP
      isSpaceChar).map String.mk).filter (fun word => 3 < word.length))

/-- JS `new Set(list)` iterated back to a list: keep the first occurrence of each
element, in insertion order. -/
def dedupFirst : List String → List String
  | [] => []
  | w :: ws => w :: (dedupFirst ws).filter (fun x => x ≠ w)

/-- `calculateSimilarity` (trendingNewsService.js): Jaccard similarity of the two
sets of significant words, with a guard returning 0 when either set has fewer than
2 words. -/
def calculateSimilarity (headline1 headline2 : String) : Rat :=
  let words1 := dedupFirst (processText headline1)
  let words2 := dedupFirst (processText headline2)
  if words1.length < 2 ∨ words2.length < 2 then 0
  else
    let intersection := dedupFirst (words1.filter (fun word => words2.contains word))
    let union := dedupFirst (words1 ++ words2)
    (intersection.length : Rat) / (union.length : Rat)

/-- The deduplicated set of significant words of a text, as a `Finset` (the spec's
`W(x)`); used by the spec-level restatement of the similarity algorithm. -/
def wordSet (text : String) : Finset String := (processText text).toFinset

/-- The Similarity Scorer exactly as the spec words it: lowercase, strip punctuation,
split, discard short tokens, deduplicate into a set; 0 if either set has fewer than
2 words, otherwise the Jaccard coefficient of the two word sets. -/
def similaritySpec (a b : String) : Rat :=
  if (wordSet a).card < 2 ∨ (wordSet b).card < 2 then 0
  else (((wordSet a) ∩ (wordSet b)).card : Rat) / (((wordSet a) ∪ (wordSet b)).card : Rat)

/-- `determineCategory` (trendingNewsService.js): sequential keyword tests over the
lowercased `title + " " + summary`, first matching group wins, default `"general"`. -/
def determineCategory (story : HeadlineRecord) : String :=
  let text := strToLower (story.title ++ " " ++ story.summary)
  if includes text "tech" || includes text "ai" || includes text "robot" ||
     includes text "computer" || includes text "software" || includes text "digital" ||
     includes text "quantum" || includes text "cyber" then
    "technology"
  else if includes text "climate" || includes text "environment" || includes text "renewable" ||
     includes text "carbon" || includes text "emission" || includes text "sustainable" ||
     includes text "green energy" || includes text "biodiversity" then
    "environment"
  else if includes text "politic" || includes text "government" || includes text "election" ||
     includes text "president" || includes text "congress" || includes text "senate" ||
     includes text "democrat" || includes text "republican" then
    "politics"
  else if includes text "health" || includes text "medical" || includes text "disease" ||
     includes text "doctor" || includes text "patient" || includes text "hospital" ||
     includes text "treatment" || includes text "vaccine" then
    "health"
  else if includes text "business" || includes text "economy" || includes text "market" ||
     includes text "stock" || includes text "investor" || includes text "company" ||
     includes text "financial" || includes text "trade" then
    "business"
  else
    "general"

/-- The ordered keyword groups of the Categorizer, in the order the code tests them. -/
def CATEGORY_GROUPS : List (String × List String) :=
  [("technology", ["tech", "ai", "robot", "computer", "software", "digital", "quantum", "cyber"]),
   ("environment", ["climate", "environment", "renewable", "carbon", "emission", "sustainable",
      "green energy", "biodiversity"]),
   ("politics", ["politic", "government", "election", "president", "congress", "senate",
      "democrat", "republican"]),
   ("health", ["health", "medical", "disease", "doctor", "patient", "hospital",
      "treatment", "vaccine"]),
   ("business", ["business", "economy", "market", "stock", "investor", "company",
      "financial", "trade"])]

/-- First-match scan over ordered keyword groups (the spec's Categorizer shape). -/
def firstLabel (text : String) : List (String × List String) → String
  | [] => "general"
  | g :: gs => if g.2.any (fun k => includes text k) then g.1 else firstLabel text gs

/-- The Categorizer exactly as the spec words it: lowercase `headline + " " + summary`,
scan the ordered keyword groups, return the label of the first group with any keyword
match, default `"general"`. -/
def categorizeSpec (headline summary : String) : String :=
  firstLabel (strToLower (headline ++ " " ++ summary)) CATEGORY_GROUPS

/-- The default similarity threshold of `clusterSimilarHeadlines` (`0.35`). -/
def defaultThreshold : Rat := 35 / 100

/-- An open cluster during `clusterSimilarHeadlines`' single pass:
`{ headlines: [...], sources: Set, category }`.  The JS `Set` of source names is
modelled as an insertion-ordered duplicate-free list (which is also the order
`Array.from` reads back). -/
structure RawCluster where
  headlines : List HeadlineRecord
  sources : List String
  category : String
deriving DecidableEq, Repr, Inhabited

/-- `set.add(s)` on an insertion-ordered set. -/
def addSource (ss : List String) (s : String) : List String :=
  if s ∈ ss then ss else ss ++ [s]

/-- Push a headline onto an existing cluster: `cluster.headlines.push(headline);
cluster.sources.add(headline.source)`.  The category is left untouched. -/
def joinCluster (h : HeadlineRecord) (c : RawCluster) : RawCluster :=
  { c with headlines := c.headlines ++ [h], sources := addSource c.sources h.source }

/-- The fresh single-record cluster the code pushes when no cluster matches. -/
def newCluster (h : HeadlineRecord) : RawCluster :=
  { headlines := [h], sources := [h.source], category := determineCategory h }

/-- The `for (const cluster of clusters)` loop with `break`: scan the open clusters in
creation order, append the record to the first whose representative (first-inserted)
headline's title is similar enough, else append a fresh cluster at the end. -/
def insertHeadline (t : Rat) (h : HeadlineRecord) : List RawCluster → List RawCluster
  | [] => [newCluster h]
  | c :: cs =>
    if t ≤ calculateSimilarity h.title c.headlines.headI.title then
      joinCluster h c :: cs
    else
      c :: insertHeadline t h cs

/-- The clustering pass of `clusterSimilarHeadlines` before the final `map`:
`headlines.forEach(...)` over the input in order. -/
def clusterCore (t : Rat) (headlines : List HeadlineRecord) : List RawCluster :=
  headlines.foldl (fun clusters h => insertHeadline t h clusters) []

/-- Intermediate score of a title in `findBestTitle`: length, except that lengths over
100 score `200 - length` (so can be negative past 200, hence `Int`). -/
def titleScore (title : String) : Int :=
  let length : Int := title.length
  if length < 20 then length else if length > 100 then 200 - length else length

/-- One step of the stable descending sort `[...headlines].sort((a, b) => bScore - aScore)`:
insert `h` after every already-placed element of score `>=` its own. -/
def insertByScoreDesc (h : HeadlineRecord) : List HeadlineRecord → List HeadlineRecord
  | [] => [h]
  | x :: xs =>
    if titleScore x.title < titleScore h.title then h :: x :: xs
    else x :: insertByScoreDesc h xs

/-- JS `Array.prototype.sort` is stable; the comparator sorts by score descending, so the
result is the stable insertion sort processing the array left to right. -/
def stableSortDesc (headlines : List HeadlineRecord) : List HeadlineRecord :=
  headlines.foldl (fun acc h => insertByScoreDesc h acc) []

/-- `findBestTitle` (trendingNewsService.js): stable-sort a copy of the headlines by
descending title score and take the first title. -/
def findBestTitle (headlines : List HeadlineRecord) : String :=
  (stableSortDesc headlines).headI.title

/-- A finalized cluster as produced by the closing `map` of `clusterSimilarHeadlines`. -/
structure Cluster where
  title : String
  headlines : List HeadlineRecord
  sourceCount : Nat
  sources : List String
  category : String
deriving DecidableEq, Repr, Inhabited

/-- The closing `map` of `clusterSimilarHeadlines`: add the representative title and the
source count (`Array.from(set)` keeps insertion order, `set.size` is its length). -/
def finalizeCluster (c : RawCluster) : Cluster :=
  { title := findBestTitle c.headlines
  , headlines := c.headlines
  , sourceCount := c.sources.length
  , sources := c.sources
  , category := c.category }

/-- `clusterSimilarHeadlines(headlines, similarityThreshold)`. -/
def clusterSimilarHeadlines (t : Rat) (headlines : List HeadlineRecord) : List Cluster :=
  (clusterCore t headlines).map finalizeCluster

/-- One perspective entry of a trending story. -/
structure Perspective where
  source : String
  title : String
  summary : String
  link : String
deriving DecidableEq, Repr, Inhabited

/-- A trending story as built by `getTrendingStories`' ranking `map`. -/
structure TrendingStory where
  id : String
  title : String
  summary : String
  category : String
  sourceCount : Nat
  sources : List String
  perspectives : List Perspective
deriving DecidableEq, Repr, Inhabited

/-- The story built from the cluster at ordinal position `p.1` of the ranked list;
`now` stands for the `Date.now()` of this generation.  `cluster.headlines[0].summary
|| ''` returns the empty string when the first summary is empty (falsy) and the
summary itself otherwise. -/
def mkStory (now : Nat) (p : Nat × Cluster) : TrendingStory :=
  { id := "trending-" ++ toString now ++ "-" ++ toString p.1
  , title := p.2.title
  , summary := if p.2.headlines.headI.summary = "" then "" else p.2.headlines.headI.summary
  , category := p.2.category
  , sourceCount := p.2.sourceCount
  , sources := p.2.sources
  , perspectives := p.2.headlines.map (fun h => ⟨h.source, h.title, h.summary, h.link⟩) }

/-- One step of the stable descending sort `.sort((a, b) => b.sourceCount - a.sourceCount)`. -/
def insertClusterDesc (c : Cluster) : List Cluster → List Cluster
  | [] => [c]
  | x :: xs =>
    if x.sourceCount < c.sourceCount then c :: x :: xs
    else x :: insertClusterDesc c xs

/-- JS stable sort by descending `sourceCount`, as left-to-right stable insertion sort. -/
def sortByCountDesc (clusters : List Cluster) : List Cluster :=
  clusters.foldl (fun acc c => insertClusterDesc c acc) []

/-- The ranking tail of `getTrendingStories`:
`clusters.filter(c => c.sourceCount >= minSources).sort(...).map((cluster, index) => ...)`. -/
def rankClusters (now : Nat) (minSources : Nat) (clusters : List Cluster) : List TrendingStory :=
  ((sortByCountDesc (clusters.filter (fun c => minSources ≤ c.sourceCount))).enum).map
    (mkStory now)

/-- The persisted cache document `{ stories, lastUpdated }`; `lastUpdated` is the
millisecond timestamp the ISO string denotes. -/
structure TrendingCache where
  stories : List TrendingStory
  lastUpdated : Nat
deriving DecidableEq, Repr, Inhabited

/-- The options object of `getTrendingStories`; `category = none` models an absent
(undefined) category. -/
structure TrendingOptions where
  minSources : Nat
  category : Option String
  forceRefresh : Bool
deriving DecidableEq, Repr, Inhabited

/-- `if (category && category !== 'all')` — the empty string is falsy in JS, so both an
absent category, the empty string and `"all"` bypass filtering. -/
def filterByCategory (category : Option String) (stories : List TrendingStory) : List TrendingStory :=
  match category with
  | none => stories
  | some c => if c = "" ∨ c = "all" then stories else stories.filter (fun s => s.category = c)

/-- The outcome of one `getTrendingStories` call: the returned stories, the persisted
cache after the call, and whether the scrape-cluster-rank pipeline ran. -/
structure GateResult where
  result : List TrendingStory
  newCache : Option TrendingCache
  ranPipeline : Bool
deriving DecidableEq, Repr

/-- The pipeline branch of `getTrendingStories`: cluster and rank the collected
headlines, overwrite the cache in full (on write failure the old cache file is left in
place), and return the fresh result, category-filtered.  `allHeadlines` is the
flattened collector output; `writeOk` tells whether `fs.writeFileSync` succeeds. -/
def runPipeline (cache : Option TrendingCache) (now : Nat) (allHeadlines : List HeadlineRecord)
    (writeOk : Bool) (opts : TrendingOptions) : GateResult :=
  let trendingStories :=
    rankClusters now opts.minSources (clusterSimilarHeadlines defaultThreshold allHeadlines)
  { result := filterByCategory opts.category trendingStories
  , newCache := if writeOk then some ⟨trendingStories, now⟩ else cache
  , ranPipeline := true }

/-- `getTrendingStories(options)`.  `cache = none` models an absent, unreadable or
unparsable cache file (the read is wrapped in try/catch).  The fresh-cache age test
`(now - lastUpdated) / 3600000 < 1` is `now - lastUpdated < 3600000`; a `lastUpdated`
in the future makes the JS age negative, hence fresh, matching truncated `Nat`
subtraction. -/
def getTrendingStories (cache : Option TrendingCache) (now : Nat)
    (allHeadlines : List HeadlineRecord) (writeOk : Bool) (opts : TrendingOptions) : GateResult :=
  match cache with
  | some tc =>
    if opts.forceRefresh = false ∧ now - tc.lastUpdated < 3600000 ∧ 0 < tc.stories.length then
      { result := filterByCategory opts.category tc.stories
      , newCache := some tc
      , ranPipeline := false }
    else
      runPipeline cache now allHeadlines writeOk opts
  | none => runPipeline cache now allHeadlines writeOk opts

/-- `getTrendingStoryById(id)`: look the id up in the persisted cache; `find` returns
the first match or `undefined`, turned into `null` by `|| null`; an absent or unreadable
cache yields `null` via the surrounding try/catch. -/
def getTrendingStoryById (cache : Option TrendingCache) (id : String) : Option TrendingStory :=
  match cache with
  | none => none
  | some tc =>
    match tc.stories.find? (fun story => story.id = id) with
    | some story => some story
    | none => none

/-- An element matched by an outlet's headline selector, after text extraction and
link resolution: the title text, the (possibly empty) summary text, and the resolved
absolute link (empty when no link was found). -/
structure ScrapedElement where
  title : String
  summary : String
  link : String
deriving DecidableEq, Repr, Inhabited

/-- The record-building core of `scrapeHeadlines(source)`.  `fetched = none` models the
failure path (network error or timeout: the catch block returns `[]`); otherwise one
record per matched element that has a non-empty title and link
(`if (title && link) headlines.push(...)`), in page order.  `now` is the collection
timestamp. -/
def scrapeHeadlines (sourceName sourceUrl now : String)
    (fetched : Option (List ScrapedElement)) : List HeadlineRecord :=
  match fetched with
  | none => []
  | some elems =>
    elems.filterMap fun e =>
      if e.title ≠ "" ∧ e.link ≠ "" then
        some { title := e.title, summary := e.summary, link := e.link
             , source := sourceName, sourceUrl := sourceUrl, timestamp := now }
      else none

section DedupLemmas

theorem mem_dedupFirst (a : String) (l : List String) : a ∈ dedupFirst l ↔ a ∈ l := by
  induction l with
  | nil => simp [dedupFirst]
  | cons w ws ih =>
    by_cases hw : a = w
    · subst hw; simp [dedupFirst]
    · simp [dedupFirst, List.mem_filter, hw, ih]

theorem nodup_dedupFirst (l : List String) : (dedupFirst l).Nodup := by
  induction l with
  | nil => simp [dedupFirst]
  | cons w ws ih =>
    simp only [dedupFirst, List.nodup_cons]
    refine ⟨fun hmem => ?_, ih.filter _⟩
    have := (List.mem_filter.mp hmem).2
    simp at this

theorem toFinset_dedupFirst (l : List String) : (dedupFirst l).toFinset = l.toFinset := by
  ext a; simp [List.mem_toFinset, mem_dedupFirst]

theorem length_dedupFirst (l : List String) : (dedupFirst l).length = l.toFinset.card := by
  rw [← List.toFinset_card_of_nodup (nodup_dedupFirst l), toFinset_dedupFirst]

end DedupLemmas

theorem calculateSimilarity_eq_spec (a b : String) :
    calculateSimilarity a b = similaritySpec a b := by
  have hinter :
      (dedupFirst ((dedupFirst (processText a)).filter
        (fun word => (dedupFirst (processText b)).contains word))).length
      = ((processText a).toFinset ∩ (processText b).toFinset).card := by
    rw [length_dedupFirst]
    congr 1
    ext x
    simp [List.mem_toFinset, List.mem_filter, mem_dedupFirst, Finset.mem_inter]
  have hunion :
      (dedupFirst (dedupFirst (processText a) ++ dedupFirst (processText b))).length
      = ((processText a).toFinset ∪ (processText b).toFinset).card := by
    rw [length_dedupFirst]
    congr 1
    ext x
    simp [List.mem_toFinset, List.mem_append, mem_dedupFirst, Finset.mem_union]
  simp only [calculateSimilarity, similaritySpec, wordSet]
  rw [hinter, hunion, length_dedupFirst, length_dedupFirst]

/-- Evaluation scheme for `calculateSimilarity` at concrete inputs whose word sets are
both of size at least 2. -/
theorem calculateSimilarity_eval (a b : String) (w1 w2 i u : List String)
    (h1 : dedupFirst (processText a) = w1) (h2 : dedupFirst (processText b) = w2)
    (hg1 : 2 ≤ w1.length) (hg2 : 2 ≤ w2.length)
    (hi : dedupFirst (w1.filter (fun word => w2.contains word)) = i)
    (hu : dedupFirst (w1 ++ w2) = u) :
    calculateSimilarity a b = (i.length : Rat) / (u.length : Rat) := by
  have hg : ¬(w1.length < 2 ∨ w2.length < 2) := by
    push_neg
    exact ⟨hg1, hg2⟩
  simp only [calculateSimilarity, h1, h2]
  rw [if_neg hg, hi, hu]

/-- C3 counterexample: the second headline of the spec's example, "Short update", does
not have fewer than 2 significant words — its deduplicated significant-word set is
exactly the 2 words `["short", "update"]`, so the claimed reason for the 0 score is
false on the code. -/
theorem short_update_guard_not_taken :
    dedupFirst (processText "Short update") = ["short", "update"] ∧
    ¬ ((dedupFirst (processText "Short update")).length < 2) := by
  refine ⟨by decide, by decide⟩

/-- C3 (amended): `calculateSimilarity` is the Jaccard coefficient of the significant
word sets, 0 when either set has fewer than 2 words; the first example scores `2/3`;
`similarity("Stocks fall on inflation fears", "Short update")` is 0 — but because the
intersection is empty, the second headline having exactly 2 significant words. -/
theorem calculateSimilarity_is_jaccard :
    (∀ a b, calculateSimilarity a b = similaritySpec a b) ∧
    calculateSimilarity "The Quick Brown Fox" "quick brown fox jumps" = 2 / 3 ∧
    calculateSimilarity "Stocks fall on inflation fears" "Short update" = 0 ∧
    (dedupFirst (processText "Short update")).length = 2 := by
  refine ⟨calculateSimilarity_eq_spec, ?_, ?_, by decide⟩
  · have h := calculateSimilarity_eval "The Quick Brown Fox" "quick brown fox jumps"
      ["quick", "brown"] ["quick", "brown", "jumps"]
      ["quick", "brown"] ["quick", "brown", "jumps"]
      (by decide) (by decide) (by decide) (by decide) (by decide) (by decide)
    rw [h]
    norm_num
  · have h := calculateSimilarity_eval "Stocks fall on inflation fears" "Short update"
      ["stocks", "fall", "inflation", "fears"] ["short", "update"]
      [] ["stocks", "fall", "inflation", "fears", "short", "update"]
      (by decide) (by decide) (by decide) (by decide) (by decide) (by decide)
    rw [h]
    norm_num

theorem determineCategory_eq_firstLabel (story : HeadlineRecord) :
    determineCategory story =
      firstLabel (strToLower (story.title ++ " " ++ story.summary)) CATEGORY_GROUPS := by
  simp only [determineCategory, CATEGORY_GROUPS, firstLabel, List.any_cons, List.any_nil,
    Bool.or_false, Bool.or_assoc]

/-- C7: the Categorizer returns the label of the first keyword group matching the
lowercased `headline + " " + summary`, the groups tested in the fixed order technology,
environment, politics, health, business, with default `"general"`; a text matching both
technology and environment keywords is classified `"technology"`, and the three §8
examples come out `"technology"`, `"environment"`, `"general"`. -/
theorem determineCategory_first_group_wins :
    (∀ story : HeadlineRecord, determineCategory story = categorizeSpec story.title story.summary) ∧
    determineCategory ⟨"New AI chip unveiled", "", "", "", "", ""⟩ = "technology" ∧
    determineCategory ⟨"Climate summit agrees on carbon cuts", "", "", "", "", ""⟩ = "environment" ∧
    determineCategory ⟨"Local bakery wins award", "", "", "", "", ""⟩ = "general" ∧
    (includes (strToLower ("AI tackles climate change" ++ " " ++ "")) "ai" = true ∧
     includes (strToLower ("AI tackles climate change" ++ " " ++ "")) "climate" = true ∧
     determineCategory ⟨"AI tackles climate change", "", "", "", "", ""⟩ = "technology") := by
  refine ⟨?_, by decide, by decide, by decide, by decide, by decide, by decide⟩
  intro story
  rw [determineCategory_eq_firstLabel]
  rfl

/-- The index of the first open cluster (in creation order) whose first-inserted
headline's title is similar enough to the record's title. -/
def firstMatchIdx (t : Rat) (h : HeadlineRecord) : List RawCluster → Option Nat
  | [] => none
  | c :: cs =>
    if t ≤ calculateSimilarity h.title c.headlines.headI.title then some 0
    else (firstMatchIdx t h cs).map (fun i => i + 1)

/-- Append the record to the cluster at the given position, leaving every other
cluster untouched. -/
def appendAt (h : HeadlineRecord) : Nat → List RawCluster → List RawCluster
  | _, [] => []
  | 0, c :: cs => joinCluster h c :: cs
  | i + 1, c :: cs => c :: appendAt h i cs

theorem insertHeadline_eq_match (t : Rat) (h : HeadlineRecord) (cs : List RawCluster) :
    insertHeadline t h cs =
      match firstMatchIdx t h cs with
      | some i => appendAt h i cs
      | none => cs ++ [newCluster h] := by
  induction cs with
  | nil => simp [insertHeadline, firstMatchIdx]
  | cons c cs ih =>
    by_cases hc : t ≤ calculateSimilarity h.title c.headlines.headI.title
    · simp [insertHeadline, firstMatchIdx, hc, appendAt]
    · simp only [insertHeadline, firstMatchIdx, if_neg hc, ih]
      cases firstMatchIdx t h cs with
      | none => simp
      | some i => simp [appendAt]

theorem clusterCore_snoc (t : Rat) (hs : List HeadlineRecord) (h : HeadlineRecord) :
    clusterCore t (hs ++ [h]) = insertHeadline t h (clusterCore t hs) := by
  simp [clusterCore, List.foldl_append]

/-- C1: the cluster engine processes records in input order; a new record is compared,
via title similarity against each cluster's first-inserted headline only, to the
clusters in creation order, joins the first cluster scoring at least the threshold
(`appendAt` touches only that cluster and keeps its category), and otherwise a fresh
cluster holding just this record is appended whose category is computed from this
record's headline+summary; joining never recomputes any category. -/
theorem cluster_engine_greedy_first_match (t : Rat) (hs : List HeadlineRecord)
    (h : HeadlineRecord) :
    (clusterCore t (hs ++ [h]) =
      match firstMatchIdx t h (clusterCore t hs) with
      | some i => appendAt h i (clusterCore t hs)
      | none => clusterCore t hs ++ [newCluster h]) ∧
    (∀ i cs, (appendAt h i cs).map RawCluster.category = cs.map RawCluster.category) ∧
    (∀ i cs c, cs.get? i = some c → (appendAt h i cs).get? i = some (joinCluster h c)) ∧
    ((newCluster h).headlines = [h] ∧ (newCluster h).category = determineCategory h) ∧
    (clusterSimilarHeadlines t hs = (clusterCore t hs).map finalizeCluster ∧
      ∀ c : RawCluster, (finalizeCluster c).category = c.category ∧
        (finalizeCluster c).headlines = c.headlines) := by
  refine ⟨?_, ?_, ?_, ⟨rfl, rfl⟩, rfl, fun c => ⟨rfl, rfl⟩⟩
  · rw [clusterCore_snoc, insertHeadline_eq_match]
  · intro i
    induction i with
    | zero => intro cs; cases cs with
      | nil => rfl
      | cons c cs => simp [appendAt, joinCluster]
    | succ i ih => intro cs; cases cs with
      | nil => rfl
      | cons c cs => simp [appendAt, ih]
  · intro i
    induction i with
    | zero => intro cs c hc; cases cs with
      | nil => simp at hc
      | cons x cs => simp at hc; simp [appendAt, hc]
    | succ i ih => intro cs c hc; cases cs with
      | nil => simp at hc
      | cons x cs =>
        rw [List.get?_cons_succ] at hc
        simpa [appendAt] using ih cs c hc

theorem flatten_insertHeadline (t : Rat) (h : HeadlineRecord) (cs : List RawCluster) :
    List.Perm ((insertHeadline t h cs).map RawCluster.headlines).flatten
      (h :: (cs.map RawCluster.headlines).flatten) := by
  induction cs with
  | nil => simp [insertHeadline, newCluster]
  | cons c cs ih =>
    by_cases hc : t ≤ calculateSimilarity h.title c.headlines.headI.title
    · simp only [insertHeadline, if_pos hc, List.map_cons, List.flatten_cons, joinCluster]
      have h1 : c.headlines ++ [h] ++ (cs.map RawCluster.headlines).flatten
          = c.headlines ++ h :: (cs.map RawCluster.headlines).flatten := by
        simp
      rw [h1]
      exact List.perm_middle
    · simp only [insertHeadline, if_neg hc, List.map_cons, List.flatten_cons]
      exact (List.Perm.append_left c.headlines ih).trans List.perm_middle

theorem flatten_clusterCore_aux (t : Rat) (hs : List HeadlineRecord) :
    ∀ acc : List RawCluster,
      List.Perm
        (((hs.foldl (fun cs h => insertHeadline t h cs) acc).map RawCluster.headlines).flatten)
        ((acc.map RawCluster.headlines).flatten ++ hs) := by
  induction hs with
  | nil => intro acc; simp
  | cons h hs ih =>
    intro acc
    have h1 := ih (insertHeadline t h acc)
    have h2 := (flatten_insertHeadline t h acc).append_right hs
    exact (h1.trans h2).trans List.perm_middle.symm

/-- C2: clustering partitions the input — the concatenation of the clusters' headline
lists is a permutation of the input list (every record lands in exactly one cluster),
and the clusters' headline counts sum to the input length. -/
theorem cluster_partitions_input (t : Rat) (hs : List HeadlineRecord) :
    List.Perm ((clusterSimilarHeadlines t hs).map Cluster.headlines).flatten hs ∧
    ((clusterSimilarHeadlines t hs).map (fun c => c.headlines.length)).sum = hs.length := by
  have hmap : (clusterSimilarHeadlines t hs).map Cluster.headlines
      = (clusterCore t hs).map RawCluster.headlines := by
    rw [clusterSimilarHeadlines, List.map_map]
    rfl
  have hperm : List.Perm ((clusterSimilarHeadlines t hs).map Cluster.headlines).flatten hs := by
    rw [hmap]
    simpa using flatten_clusterCore_aux t hs []
  refine ⟨hperm, ?_⟩
  have hlen := hperm.length_eq
  rwa [List.length_flatten, List.map_map] at hlen

/-- Running first-encountered maximum of `titleScore`, seeded with `b`. -/
def firstBest (b : HeadlineRecord) : List HeadlineRecord → HeadlineRecord
  | [] => b
  | x :: xs => if titleScore b.title < titleScore x.title then firstBest x xs else firstBest b xs

theorem insertByScoreDesc_ne_nil (h : HeadlineRecord) (l : List HeadlineRecord) :
    insertByScoreDesc h l ≠ [] := by
  cases l with
  | nil => simp [insertByScoreDesc]
  | cons x xs =>
    by_cases hx : titleScore x.title < titleScore h.title <;>
      simp [insertByScoreDesc, hx]

theorem headI_insertByScoreDesc (h : HeadlineRecord) (l : List HeadlineRecord)
    (hl : l ≠ []) :
    (insertByScoreDesc h l).headI =
      if titleScore l.headI.title < titleScore h.title then h else l.headI := by
  cases l with
  | nil => exact absurd rfl hl
  | cons x xs =>
    by_cases hx : titleScore (x :: xs).headI.title < titleScore h.title
    · simp only [List.headI] at hx
      simp only [insertByScoreDesc, if_pos hx, List.headI]
    · simp only [List.headI] at hx
      simp only [insertByScoreDesc, if_neg hx, List.headI]

theorem foldl_insert_headI (hs : List HeadlineRecord) :
    ∀ acc : List HeadlineRecord, acc ≠ [] →
      (hs.foldl (fun a h => insertByScoreDesc h a) acc).headI = firstBest acc.headI hs := by
  induction hs with
  | nil => intro acc _; rfl
  | cons h hs ih =>
    intro acc hacc
    have hne := insertByScoreDesc_ne_nil h acc
    have step := ih (insertByScoreDesc h acc) hne
    rw [List.foldl_cons, step, headI_insertByScoreDesc h acc hacc]
    by_cases hx : titleScore acc.headI.title < titleScore h.title <;>
      simp [firstBest, hx]

theorem firstBest_split (l : List HeadlineRecord) :
    ∀ b : HeadlineRecord,
      (firstBest b l = b ∧ ∀ x ∈ l, titleScore x.title ≤ titleScore b.title) ∨
      (∃ l₁ l₂, l = l₁ ++ firstBest b l :: l₂ ∧
        titleScore b.title < titleScore (firstBest b l).title ∧
        (∀ x ∈ l₁, titleScore x.title < titleScore (firstBest b l).title) ∧
        (∀ x ∈ l, titleScore x.title ≤ titleScore (firstBest b l).title)) := by
  induction l with
  | nil => intro b; left; simp [firstBest]
  | cons x xs ih =>
    intro b
    by_cases hx : titleScore b.title < titleScore x.title
    · rw [show firstBest b (x :: xs) = firstBest x xs from by simp [firstBest, hx]]
      rcases ih x with ⟨he, hmax⟩ | ⟨l₁, l₂, heq, hgt, hpre, hmax⟩
      · right
        refine ⟨[], xs, by simp [he], by rw [he]; exact hx, by simp, ?_⟩
        intro y hy
        rw [he]
        rcases List.mem_cons.mp hy with hy | hy
        · exact le_of_eq (by rw [hy])
        · exact hmax y hy
      · right
        refine ⟨x :: l₁, l₂, by rw [List.cons_append, ← heq], hx.trans hgt, ?_, ?_⟩
        · intro y hy
          rcases List.mem_cons.mp hy with hy | hy
          · rw [hy]; exact hgt
          · exact hpre y hy
        · intro y hy
          rcases List.mem_cons.mp hy with hy | hy
          · rw [hy]; exact le_of_lt hgt
          · exact hmax y hy
    · rw [show firstBest b (x :: xs) = firstBest b xs from by simp [firstBest, hx]]
      rcases ih b with ⟨he, hmax⟩ | ⟨l₁, l₂, heq, hgt, hpre, hmax⟩
      · left
        refine ⟨he, ?_⟩
        intro y hy
        rcases List.mem_cons.mp hy with hy | hy
        · rw [hy]; exact le_of_not_lt hx
        · exact hmax y hy
      · right
        refine ⟨x :: l₁, l₂, by rw [List.cons_append, ← heq], hgt, ?_, ?_⟩
        · intro y hy
          rcases List.mem_cons.mp hy with hy | hy
          · rw [hy]; exact lt_of_le_of_lt (le_of_not_lt hx) hgt
          · exact hpre y hy
        · intro y hy
          rcases List.mem_cons.mp hy with hy | hy
          · rw [hy]; exact le_of_lt (lt_of_le_of_lt (le_of_not_lt hx) hgt)
          · exact hmax y hy

/-- C8: the representative title of a non-empty cluster is the title of a headline of
maximal `titleScore` (length, except lengths over 100 score `200 - length`), and among
equal maximal scores the first-encountered headline wins: every headline strictly before
the selected one scores strictly less. -/
theorem findBestTitle_first_max (hs : List HeadlineRecord) (hne : hs ≠ []) :
    ∃ l₁ best l₂, hs = l₁ ++ best :: l₂ ∧ findBestTitle hs = best.title ∧
      (∀ x ∈ hs, titleScore x.title ≤ titleScore best.title) ∧
      (∀ x ∈ l₁, titleScore x.title < titleScore best.title) := by
  cases hs with
  | nil => exact absurd rfl hne
  | cons h t =>
    have hbt : findBestTitle (h :: t) = (firstBest h t).title := by
      have h0 : stableSortDesc (h :: t)
          = t.foldl (fun a x => insertByScoreDesc x a) [h] := by
        simp [stableSortDesc, List.foldl_cons, insertByScoreDesc]
      rw [findBestTitle, h0, foldl_insert_headI t [h] (by simp)]
      rfl
    rcases firstBest_split t h with ⟨he, hmax⟩ | ⟨l₁, l₂, heq, hgt, hpre, hmax⟩
    · refine ⟨[], h, t, by simp, by rw [hbt, he], ?_, by simp⟩
      intro y hy
      rcases List.mem_cons.mp hy with hy | hy
      · rw [hy]
      · exact hmax y hy
    · refine ⟨h :: l₁, firstBest h t, l₂, by rw [List.cons_append, ← heq], hbt, ?_, ?_⟩
      · intro y hy
        rcases List.mem_cons.mp hy with hy | hy
        · rw [hy]; exact le_of_lt hgt
        · exact hmax y hy
      · intro y hy
        rcases List.mem_cons.mp hy with hy | hy
        · rw [hy]; exact hgt
        · exact hpre y hy

/-- C8 witness: `findBestTitle_first_max` applied to a concrete two-headline cluster. -/
theorem findBestTitle_first_max_witness :
    ∃ l₁ best l₂,
      ([⟨"Global markets rally strongly", "", "", "CNN", "", ""⟩,
        ⟨"Hi", "", "", "BBC", "", ""⟩] : List HeadlineRecord) = l₁ ++ best :: l₂ ∧
      findBestTitle [⟨"Global markets rally strongly", "", "", "CNN", "", ""⟩,
        ⟨"Hi", "", "", "BBC", "", ""⟩] = best.title ∧
      (∀ x ∈ ([⟨"Global markets rally strongly", "", "", "CNN", "", ""⟩,
        ⟨"Hi", "", "", "BBC", "", ""⟩] : List HeadlineRecord),
        titleScore x.title ≤ titleScore best.title) ∧
      (∀ x ∈ l₁, titleScore x.title < titleScore best.title) :=
  findBestTitle_first_max
    [⟨"Global markets rally strongly", "", "", "CNN", "", ""⟩,
     ⟨"Hi", "", "", "BBC", "", ""⟩] (by decide)

theorem perm_insertClusterDesc (c : Cluster) (l : List Cluster) :
    List.Perm (insertClusterDesc c l) (c :: l) := by
  induction l with
  | nil => simp [insertClusterDesc]
  | cons x xs ih =>
    by_cases hc : x.sourceCount < c.sourceCount
    · rw [insertClusterDesc, if_pos hc]
    · rw [insertClusterDesc, if_neg hc]
      exact (ih.cons x).trans (List.Perm.swap c x xs)

theorem perm_sortAux (l : List Cluster) :
    ∀ acc, List.Perm (l.foldl (fun a c => insertClusterDesc c a) acc) (acc ++ l) := by
  induction l with
  | nil => intro acc; simp
  | cons c l ih =>
    intro acc
    have h1 := ih (insertClusterDesc c acc)
    have h2 := (perm_insertClusterDesc c acc).append_right l
    exact (h1.trans h2).trans List.perm_middle.symm

theorem perm_sortByCountDesc (l : List Cluster) : List.Perm (sortByCountDesc l) l := by
  simpa using perm_sortAux l []

theorem pairwise_insertClusterDesc (c : Cluster) (l : List Cluster)
    (hl : l.Pairwise (fun a b => b.sourceCount ≤ a.sourceCount)) :
    (insertClusterDesc c l).Pairwise (fun a b => b.sourceCount ≤ a.sourceCount) := by
  induction l with
  | nil => simp [insertClusterDesc]
  | cons x xs ih =>
    rcases List.pairwise_cons.mp hl with ⟨hx, hxs⟩
    by_cases hc : x.sourceCount < c.sourceCount
    · rw [insertClusterDesc, if_pos hc]
      refine List.pairwise_cons.mpr ⟨?_, hl⟩
      intro y hy
      rcases List.mem_cons.mp hy with hy | hy
      · rw [hy]; exact le_of_lt hc
      · exact (hx y hy).trans (le_of_lt hc)
    · rw [insertClusterDesc, if_neg hc]
      refine List.pairwise_cons.mpr ⟨?_, ih hxs⟩
      intro y hy
      have hmem := (perm_insertClusterDesc c xs).mem_iff.mp hy
      rcases List.mem_cons.mp hmem with hy2 | hy2
      · rw [hy2]; exact le_of_not_lt hc
      · exact hx y hy2

theorem pairwise_sortAux (l : List Cluster) :
    ∀ acc, acc.Pairwise (fun a b => b.sourceCount ≤ a.sourceCount) →
      (l.foldl (fun a c => insertClusterDesc c a) acc).Pairwise
        (fun a b => b.sourceCount ≤ a.sourceCount) := by
  induction l with
  | nil => intro acc hacc; exact hacc
  | cons c l ih =>
    intro acc hacc
    exact ih (insertClusterDesc c acc) (pairwise_insertClusterDesc c acc hacc)

theorem pairwise_sortByCountDesc (l : List Cluster) :
    (sortByCountDesc l).Pairwise (fun a b => b.sourceCount ≤ a.sourceCount) :=
  pairwise_sortAux l [] (by simp)

theorem filter_insertClusterDesc (n : Nat) (c : Cluster) (l : List Cluster)
    (hl : l.Pairwise (fun a b => b.sourceCount ≤ a.sourceCount)) :
    (insertClusterDesc c l).filter (fun x => x.sourceCount = n)
      = l.filter (fun x => x.sourceCount = n)
        ++ (if c.sourceCount = n then [c] else []) := by
  induction l with
  | nil => by_cases hc : c.sourceCount = n <;> simp [insertClusterDesc, hc]
  | cons x xs ih =>
    rcases List.pairwise_cons.mp hl with ⟨hx, hxs⟩
    by_cases hlt : x.sourceCount < c.sourceCount
    · rw [insertClusterDesc, if_pos hlt]
      by_cases hc : c.sourceCount = n
      · have hnone : (x :: xs).filter (fun y => y.sourceCount = n) = [] := by
          rw [List.filter_eq_nil_iff]
          intro y hy
          rcases List.mem_cons.mp hy with hy | hy
          · simp only [hy, decide_eq_true_eq]
            omega
          · have := hx y hy
            simp only [decide_eq_true_eq]
            omega
        simp [List.filter_cons, hc, hnone]
      · simp [List.filter_cons, hc]
    · rw [insertClusterDesc, if_neg hlt]
      by_cases hxn : x.sourceCount = n
      · simp [List.filter_cons, hxn, ih hxs]
      · simp [List.filter_cons, hxn, ih hxs]

theorem filter_sortAux (n : Nat) (l : List Cluster) :
    ∀ acc, acc.Pairwise (fun a b => b.sourceCount ≤ a.sourceCount) →
      (l.foldl (fun a c => insertClusterDesc c a) acc).filter (fun x => x.sourceCount = n)
        = acc.filter (fun x => x.sourceCount = n) ++ l.filter (fun x => x.sourceCount = n) := by
  induction l with
  | nil => intro acc _; simp
  | cons c l ih =>
    intro acc hacc
    rw [List.foldl_cons, ih _ (pairwise_insertClusterDesc c acc hacc),
      filter_insertClusterDesc n c acc hacc]
    by_cases hc : c.sourceCount = n
    · simp [List.filter_cons, hc]
    · simp [List.filter_cons, hc]

theorem filter_sortByCountDesc (n : Nat) (l : List Cluster) :
    (sortByCountDesc l).filter (fun c => c.sourceCount = n)
      = l.filter (fun c => c.sourceCount = n) := by
  simpa using filter_sortAux n l [] (by simp)

theorem snd_mem_of_mem_enumFrom {α : Type} (l : List α) :
    ∀ (k : Nat) (p : Nat × α), p ∈ l.enumFrom k → p.2 ∈ l := by
  induction l with
  | nil => intro k p hp; simp [List.enumFrom] at hp
  | cons x xs ih =>
    intro k p hp
    rw [List.enumFrom] at hp
    rcases List.mem_cons.mp hp with h | h
    · rw [h]; exact List.mem_cons_self x xs
    · exact List.mem_cons_of_mem x (ih (k + 1) p h)

theorem map_sourceCount_enumFrom (now : Nat) (l : List Cluster) :
    ∀ k, (((l.enumFrom k).map (mkStory now)).map (fun s => s.sourceCount))
      = l.map (fun c => c.sourceCount) := by
  induction l with
  | nil => intro k; rfl
  | cons x xs ih =>
    intro k
    simp only [List.enumFrom, List.map_cons, ih (k + 1)]
    rfl

/-- C5: the ranker keeps exactly the clusters with at least `minSources` distinct
sources, sorts them by source count descending with a stable sort (the clusters of any
given source count keep their discovery order), and every produced story's
`sourceCount` is its cluster's `sources.size`, hence at least `minSources`. -/
theorem rank_filters_sorts_stably (t : Rat) (hs : List HeadlineRecord)
    (clusters : List Cluster) (m now : Nat) :
    (rankClusters now m clusters =
      ((sortByCountDesc (clusters.filter (fun c => m ≤ c.sourceCount))).enum).map
        (mkStory now)) ∧
    List.Perm (sortByCountDesc (clusters.filter (fun c => m ≤ c.sourceCount)))
      (clusters.filter (fun c => m ≤ c.sourceCount)) ∧
    (sortByCountDesc (clusters.filter (fun c => m ≤ c.sourceCount))).Pairwise
      (fun a b => b.sourceCount ≤ a.sourceCount) ∧
    (∀ n, (sortByCountDesc (clusters.filter (fun c => m ≤ c.sourceCount))).filter
        (fun c => c.sourceCount = n)
      = (clusters.filter (fun c => m ≤ c.sourceCount)).filter (fun c => c.sourceCount = n)) ∧
    ((rankClusters now m clusters).map (fun s => s.sourceCount)
      = (sortByCountDesc (clusters.filter (fun c => m ≤ c.sourceCount))).map
          (fun c => c.sourceCount)) ∧
    (∀ (k : Nat) (p : Nat × Cluster), (mkStory k p).sourceCount = p.2.sourceCount) ∧
    (∀ s ∈ rankClusters now m clusters, m ≤ s.sourceCount) ∧
    (∀ c ∈ clusterSimilarHeadlines t hs, c.sourceCount = c.sources.length) := by
  refine ⟨rfl, perm_sortByCountDesc _, pairwise_sortByCountDesc _,
    fun n => filter_sortByCountDesc n _, map_sourceCount_enumFrom now _ 0,
    fun k p => rfl, ?_, ?_⟩
  · intro s hsm
    rcases List.mem_map.mp hsm with ⟨p, hp, hps⟩
    have h2 : p.2 ∈ sortByCountDesc (clusters.filter (fun c => m ≤ c.sourceCount)) :=
      snd_mem_of_mem_enumFrom _ 0 p hp
    have h3 := (perm_sortByCountDesc _).mem_iff.mp h2
    have h4 := List.mem_filter.mp h3
    have h5 : s.sourceCount = p.2.sourceCount := by rw [← hps]; rfl
    rw [h5]
    exact Nat.le_of_ble_eq_true (by simpa using h4.2)
  · intro c hc
    rcases List.mem_map.mp hc with ⟨r, _, hrc⟩
    rw [← hrc]
    rfl

/-- C6: `getTrendingStories` serves the persisted cache without running the pipeline
exactly when the cache exists, `forceRefresh` is false, the cache is less than one hour
old and its story list is non-empty (returning the cached stories filtered by category);
in every other case it runs the full pipeline, wholly replaces the cache contents with
the new unfiltered story list (the old cache surviving only a failed write), and returns
the fresh, category-filtered result; a cache write failure does not change what is
returned. -/
theorem cache_gate_policy (cache : Option TrendingCache) (now : Nat)
    (hs : List HeadlineRecord) (writeOk : Bool) (opts : TrendingOptions) :
    ((getTrendingStories cache now hs writeOk opts).ranPipeline = false ↔
      ∃ tc, cache = some tc ∧ opts.forceRefresh = false ∧
        now - tc.lastUpdated < 3600000 ∧ tc.stories ≠ []) ∧
    (∀ tc, cache = some tc →
      (getTrendingStories cache now hs writeOk opts).ranPipeline = false →
      getTrendingStories cache now hs writeOk opts
        = ⟨filterByCategory opts.category tc.stories, some tc, false⟩) ∧
    ((getTrendingStories cache now hs writeOk opts).ranPipeline = true →
      getTrendingStories cache now hs writeOk opts
        = ⟨filterByCategory opts.category
            (rankClusters now opts.minSources (clusterSimilarHeadlines defaultThreshold hs)),
          if writeOk then
            some ⟨rankClusters now opts.minSources (clusterSimilarHeadlines defaultThreshold hs),
              now⟩
          else cache, true⟩) ∧
    ((getTrendingStories cache now hs false opts).result
      = (getTrendingStories cache now hs true opts).result) := by
  cases cache with
  | none =>
    refine ⟨by simp [getTrendingStories, runPipeline], ?_, fun _ => rfl, rfl⟩
    intro tc htc
    exact absurd htc (by simp)
  | some tc =>
    by_cases hcond :
        opts.forceRefresh = false ∧ now - tc.lastUpdated < 3600000 ∧ 0 < tc.stories.length
    · refine ⟨?_, ?_, ?_, ?_⟩
      · refine ⟨fun _ => ⟨tc, rfl, hcond.1, hcond.2.1, ?_⟩, fun _ => ?_⟩
        · intro hnil
          have := hcond.2.2
          rw [hnil] at this
          simp at this
        · simp only [getTrendingStories, if_pos hcond]
      · intro tc2 htc2 _
        injection htc2 with h2
        subst h2
        simp only [getTrendingStories, if_pos hcond]
      · intro hran
        simp only [getTrendingStories, if_pos hcond] at hran
        simp at hran
      · simp only [getTrendingStories, if_pos hcond]
    · refine ⟨?_, ?_, ?_, ?_⟩
      · refine ⟨fun hfalse => ?_, fun hex => ?_⟩
        · exfalso
          simp only [getTrendingStories, if_neg hcond, runPipeline] at hfalse
          simp at hfalse
        · exfalso
          rcases hex with ⟨tc2, htc2, hforce, hage, hnil⟩
          injection htc2 with h2
          subst h2
          exact hcond ⟨hforce, hage, List.length_pos.mpr hnil⟩
      · intro tc2 _ hran
        exfalso
        simp only [getTrendingStories, if_neg hcond, runPipeline] at hran
        simp at hran
      · intro _
        simp only [getTrendingStories, if_neg hcond, runPipeline]
      · simp only [getTrendingStories, if_neg hcond, runPipeline]

theorem find?_first_split {α : Type} (p : α → Bool) :
    ∀ (l : List α) (a : α), l.find? p = some a →
      ∃ l₁ l₂, l = l₁ ++ a :: l₂ ∧ p a = true ∧ ∀ x ∈ l₁, p x = false := by
  intro l
  induction l with
  | nil => intro a h; simp at h
  | cons x xs ih =>
    intro a h
    by_cases hx : p x
    · rw [List.find?_cons_of_pos _ hx] at h
      injection h with h
      subst h
      exact ⟨[], xs, rfl, hx, by simp⟩
    · rw [List.find?_cons_of_neg _ hx] at h
      rcases ih a h with ⟨l₁, l₂, heq, hpa, hpre⟩
      refine ⟨x :: l₁, l₂, by rw [List.cons_append, heq], hpa, ?_⟩
      intro y hy
      rcases List.mem_cons.mp hy with hy | hy
      · rw [hy]; simpa using hx
      · exact hpre y hy

/-- C9: `getTrendingStoryById` returns the first story carrying the requested id from
the persisted cache (every story before it has a different id), and returns the null
result whenever the id is absent or the cache file is absent or unreadable; it is a pure
lookup over the cache value and triggers no pipeline run. -/
theorem getTrendingStoryById_lookup (cache : Option TrendingCache) (id : String) :
    (∀ s, getTrendingStoryById cache id = some s →
      ∃ tc l₁ l₂, cache = some tc ∧ tc.stories = l₁ ++ s :: l₂ ∧ s.id = id ∧
        ∀ x ∈ l₁, x.id ≠ id) ∧
    (getTrendingStoryById cache id = none ↔
      cache = none ∨ ∃ tc, cache = some tc ∧ ∀ s ∈ tc.stories, s.id ≠ id) := by
  cases cache with
  | none =>
    refine ⟨?_, by simp [getTrendingStoryById]⟩
    intro s h
    simp [getTrendingStoryById] at h
  | some tc =>
    refine ⟨?_, ?_, ?_⟩
    · intro s h
      simp only [getTrendingStoryById] at h
      cases hfind : tc.stories.find? (fun story => story.id = id) with
      | none => rw [hfind] at h; exact absurd h (by simp)
      | some s2 =>
        rw [hfind] at h
        injection h with h
        subst h
        rcases find?_first_split (fun story => story.id = id) tc.stories s2 hfind with
          ⟨l₁, l₂, heq, hps, hpre⟩
        refine ⟨tc, l₁, l₂, rfl, heq, by simpa using hps, ?_⟩
        intro x hx
        simpa using hpre x hx
    · intro h
      right
      refine ⟨tc, rfl, ?_⟩
      simp only [getTrendingStoryById] at h
      cases hfind : tc.stories.find? (fun story => story.id = id) with
      | some s2 => rw [hfind] at h; exact absurd h (by simp)
      | none =>
        intro s hsmem
        simpa using List.find?_eq_none.mp hfind s hsmem
    · rintro (h | ⟨tc2, htc2, hall⟩)
      · exact absurd h (by simp)
      · injection htc2 with h2
        subst h2
        simp only [getTrendingStoryById]
        have hfind : tc.stories.find? (fun story => story.id = id) = none :=
          List.find?_eq_none.mpr (fun x hx => by simp [hall x hx])
        rw [hfind]

theorem if_empty_id (s : String) : (if s = "" then "" else s) = s := by
  by_cases h : s = "" <;> simp [h]

/-- A CNN-style record whose summary is non-empty but whose title scores lower than
`concreteRecB`'s. -/
def concreteRecA : HeadlineRecord :=
  ⟨"Global markets rally strongly", "Investors cheer the rally.",
   "https://cnn.example/a", "CNN", "https://www.cnn.com", "t"⟩

/-- A BBC-style record with an empty summary and the longer, higher-scoring title. -/
def concreteRecB : HeadlineRecord :=
  ⟨"Global markets rally strongly on upbeat economic data today", "",
   "https://bbc.example/b", "BBC", "https://www.bbc.com/news", "t"⟩

theorem concrete_pair_similar :
    defaultThreshold ≤ calculateSimilarity concreteRecB.title concreteRecA.title := by
  have hval := calculateSimilarity_eval concreteRecB.title concreteRecA.title
    ["global", "markets", "rally", "strongly", "upbeat", "economic", "data", "today"]
    ["global", "markets", "rally", "strongly"]
    ["global", "markets", "rally", "strongly"]
    ["global", "markets", "rally", "strongly", "upbeat", "economic", "data", "today"]
    (by decide) (by decide) (by decide) (by decide) (by decide) (by decide)
  rw [hval]
  norm_num [defaultThreshold]

theorem concrete_pair_clusters :
    clusterSimilarHeadlines defaultThreshold [concreteRecA, concreteRecB]
      = [finalizeCluster (joinCluster concreteRecB (newCluster concreteRecA))] := by
  have hcc : clusterCore defaultThreshold [concreteRecA, concreteRecB]
      = [joinCluster concreteRecB (newCluster concreteRecA)] := by
    show insertHeadline defaultThreshold concreteRecB
      (insertHeadline defaultThreshold concreteRecA []) = _
    rw [show insertHeadline defaultThreshold concreteRecA [] = [newCluster concreteRecA]
      from rfl]
    rw [insertHeadline,
      if_pos (show defaultThreshold ≤ calculateSimilarity concreteRecB.title
        ((newCluster concreteRecA).headlines.headI.title) from concrete_pair_similar)]
  rw [clusterSimilarHeadlines, hcc]
  rfl

/-- C10: a trending story's summary is the summary of its cluster's first-inserted
headline (`|| ''` leaves any string unchanged, the empty one included), while its title
is the cluster's representative title selected by `findBestTitle`; on a concrete
two-outlet cluster the produced story takes its title from the BBC headline and its
summary from the CNN one. -/
theorem story_summary_from_first_inserted (t : Rat) (hs : List HeadlineRecord)
    (now m : Nat) :
    (∀ (k : Nat) (p : Nat × Cluster), (mkStory k p).summary = p.2.headlines.headI.summary) ∧
    (∀ s ∈ rankClusters now m (clusterSimilarHeadlines t hs),
      ∃ c ∈ clusterSimilarHeadlines t hs,
        s.summary = c.headlines.headI.summary ∧ s.title = c.title) ∧
    (∀ c ∈ clusterSimilarHeadlines t hs, c.title = findBestTitle c.headlines) ∧
    ((rankClusters 0 2 (clusterSimilarHeadlines defaultThreshold
        [concreteRecA, concreteRecB])).length = 1 ∧
      (rankClusters 0 2 (clusterSimilarHeadlines defaultThreshold
        [concreteRecA, concreteRecB])).headI.title = concreteRecB.title ∧
      (rankClusters 0 2 (clusterSimilarHeadlines defaultThreshold
        [concreteRecA, concreteRecB])).headI.summary = concreteRecA.summary ∧
      concreteRecA.source ≠ concreteRecB.source) := by
  have hmk : ∀ (k : Nat) (p : Nat × Cluster),
      (mkStory k p).summary = p.2.headlines.headI.summary := by
    intro k p
    show (if p.2.headlines.headI.summary = "" then "" else p.2.headlines.headI.summary) = _
    exact if_empty_id _
  refine ⟨hmk, ?_, ?_, ?_⟩
  · intro s hsm
    rcases List.mem_map.mp hsm with ⟨p, hp, hps⟩
    have h2 := snd_mem_of_mem_enumFrom _ 0 p hp
    have h3 := (perm_sortByCountDesc _).mem_iff.mp h2
    have h4 := (List.mem_filter.mp h3).1
    refine ⟨p.2, h4, ?_, ?_⟩
    · rw [← hps]; exact hmk now p
    · rw [← hps]; rfl
  · intro c hc
    rcases List.mem_map.mp hc with ⟨r, _, hrc⟩
    rw [← hrc]
    rfl
  · rw [concrete_pair_clusters]
    refine ⟨by decide, by decide, by decide, by decide⟩

/-- One element as extracted from an outlet page, with a non-empty title and link. -/
def capElem : ScrapedElement := ⟨"An example headline", "", "https://example.com/story"⟩

/-- C4 counterexample: an outlet page with 11 extracted headline elements yields 11
records — `scrapeHeadlines` in trendingNewsService.js has no per-outlet cap of 10. -/
theorem scrape_no_cap_counterexample :
    (scrapeHeadlines "CNN" "https://www.cnn.com" "t"
        (some (List.replicate 11 capElem))).length = 11 ∧
    ¬ ((scrapeHeadlines "CNN" "https://www.cnn.com" "t"
        (some (List.replicate 11 capElem))).length ≤ 10) := by
  refine ⟨by decide, by decide⟩

/-- C4 (amended): the headline collector returns one record per extracted element that
has a non-empty title and link — with no per-outlet cap — and an empty sequence on any
collection failure rather than propagating the error. -/
theorem scrape_uncapped_and_failure_empty (name url ts : String)
    (elems : List ScrapedElement) :
    scrapeHeadlines name url ts none = [] ∧
    (scrapeHeadlines name url ts (some elems)).length
      = (elems.filter (fun e => e.title ≠ "" && e.link ≠ "")).length ∧
    (∀ r ∈ scrapeHeadlines name url ts (some elems), r.source = name) := by
  refine ⟨rfl, ?_, ?_⟩
  · induction elems with
    | nil => rfl
    | cons e es ih =>
      simp only [scrapeHeadlines] at ih ⊢
      by_cases h1 : e.title = ""
      · simp [List.filterMap_cons, List.filter_cons, h1, ih]
      · by_cases h2 : e.link = ""
        · simp [List.filterMap_cons, List.filter_cons, h1, h2, ih]
        · simp [List.filterMap_cons, List.filter_cons, h1, h2, ih]
  · intro r hr
    simp only [scrapeHeadlines] at hr
    rcases List.mem_filterMap.mp hr with ⟨e, _, hfe⟩
    by_cases hc : e.title ≠ "" ∧ e.link ≠ ""
    · rw [if_pos hc] at hfe
      injection hfe with h
      rw [← h]
    · rw [if_neg hc] at hfe
      exact absurd hfe (by simp)
